import Mathlib

/-!
Verification of `app_to_yolo_converter.py` (photo-analyzer-ios).

Shallow embedding of the converter's pure logic:
  * `calculate_package_detection_score` — the 16-rule decision list;
  * `create_yolo_label` — label-line generation (box mode / whole-image mode);
  * `optimize_image_for_yolo` — letterbox transform plus photometric correction;
  * `convert_app_data` — the per-record loop with train/val split and skip counting.

Machine integers are modelled as `Nat`; the floating-point arithmetic of the
source is modelled exactly over `ℚ` (every constant of the source — 640, 114,
0.95, 5 — is exactly representable, and each concrete computation proved below
has been checked to agree with IEEE double evaluation).
-/

namespace PhotoAnalyzer

/-- The counts the score function extracts from the `detected_objects` dict via
`.get(key, 0)`: one non-negative count per target class. An absent key reads
as a zero field. -/
structure DetectionCounts where
  no_objects : ℕ
  pakke : ℕ
  postkasse : ℕ
  etikett : ℕ
  postkasseskilt : ℕ
  pakke_i_postkasse : ℕ
  pakke_ved_inngangsparti : ℕ
  inngangsparti : ℕ
deriving DecidableEq, Repr

/-- All-zero counts: the empty `detected_objects` dict. -/
def DetectionCounts.empty : DetectionCounts := ⟨0, 0, 0, 0, 0, 0, 0, 0⟩

/-- `AppDataToYOLO.calculate_package_detection_score`: the nested
`if`/`elif` chain of the source, value for value and branch for branch.
Scores are rationals (the Python floats 1.0, 0.8, … are exact). -/
def calculate_package_detection_score (d : DetectionCounts) : ℚ :=
  if d.no_objects > 0 then 0
  else if d.pakke > 0 ∧ d.postkasse > 0 ∧ d.etikett > 0 ∧ d.postkasseskilt > 0 then 1
  else if d.pakke_i_postkasse > 0 ∧ d.etikett > 0 ∧ d.postkasseskilt > 0 then 1
  else if d.pakke_ved_inngangsparti > 0 then 1
  else if d.pakke > 0 ∧ d.inngangsparti > 0 then 1
  else if d.etikett > 0 ∧ d.postkasseskilt > 0 then 8/10
  else if d.pakke > 0 ∧ d.postkasse > 0 ∧ d.postkasseskilt > 0 then 7/10
  else if d.pakke > 0 ∧ d.postkasseskilt > 0 then 6/10
  else if d.pakke > 0 ∧ d.postkasse > 0 ∧ d.etikett > 0 then 5/10
  else if d.inngangsparti > 0 then 5/10
  else if d.pakke > 0 ∧ d.postkasse > 0 then 25/100
  else if d.postkasse > 0 ∧ d.postkasseskilt > 0 then 25/100
  else if d.postkasseskilt > 0 then 2/10
  else if d.pakke > 0 then 1/10
  else if d.postkasse > 0 then 1/10
  else if d.etikett > 0 then 5/100
  else 0

/-- Modelled from the spec's words (§4.6 rule table): the fixed ordered
16-rule decision list, as data. Used to state that the source's nested
conditionals refine first-match-wins evaluation of this list. -/
def scoreRules : List ((DetectionCounts → Bool) × ℚ) :=
  [ (fun d => decide (d.no_objects > 0), 0)
  , (fun d => decide (d.pakke > 0 ∧ d.postkasse > 0 ∧ d.etikett > 0 ∧ d.postkasseskilt > 0), 1)
  , (fun d => decide (d.pakke_i_postkasse > 0 ∧ d.etikett > 0 ∧ d.postkasseskilt > 0), 1)
  , (fun d => decide (d.pakke_ved_inngangsparti > 0), 1)
  , (fun d => decide (d.pakke > 0 ∧ d.inngangsparti > 0), 1)
  , (fun d => decide (d.etikett > 0 ∧ d.postkasseskilt > 0), 8/10)
  , (fun d => decide (d.pakke > 0 ∧ d.postkasse > 0 ∧ d.postkasseskilt > 0), 7/10)
  , (fun d => decide (d.pakke > 0 ∧ d.postkasseskilt > 0), 6/10)
  , (fun d => decide (d.pakke > 0 ∧ d.postkasse > 0 ∧ d.etikett > 0), 5/10)
  , (fun d => decide (d.inngangsparti > 0), 5/10)
  , (fun d => decide (d.pakke > 0 ∧ d.postkasse > 0), 25/100)
  , (fun d => decide (d.postkasse > 0 ∧ d.postkasseskilt > 0), 25/100)
  , (fun d => decide (d.postkasseskilt > 0), 2/10)
  , (fun d => decide (d.pakke > 0), 1/10)
  , (fun d => decide (d.postkasse > 0), 1/10)
  , (fun d => decide (d.etikett > 0), 5/100) ]

/-- First-match-wins evaluation of a decision list; `0.0` when no rule
matches (spec §4.6). -/
def evalDecisionList (rules : List ((DetectionCounts → Bool) × ℚ))
    (d : DetectionCounts) : ℚ :=
  match rules with
  | [] => 0
  | (p, v) :: rest => if p d then v else evalDecisionList rest d

/-- `if`-congruence step used to align the source's propositional
conditionals with the Boolean conditions of `evalDecisionList`. -/
theorem ite_decide_step {p : Prop} [Decidable p] {v x y : ℚ} (h : x = y) :
    (if p then v else x) = (if decide p = true then v else y) := by
  by_cases hp : p <;> simp [hp, h]

/-- A decision list evaluates to `0` or to the value of one of its rules. -/
theorem evalDecisionList_cases (rules : List ((DetectionCounts → Bool) × ℚ))
    (d : DetectionCounts) :
    evalDecisionList rules d = 0 ∨ ∃ r ∈ rules, evalDecisionList rules d = r.2 := by
  induction rules with
  | nil => left; rfl
  | cons r rest ih =>
    obtain ⟨p, v⟩ := r
    by_cases hp : p d = true
    · right; exact ⟨(p, v), List.mem_cons_self _ _, by simp [evalDecisionList, hp]⟩
    · rcases ih with h0 | ⟨r, hr, hv⟩
      · left; simp [evalDecisionList, hp, h0]
      · right; exact ⟨r, List.mem_cons_of_mem _ hr, by simp [evalDecisionList, hp, hv]⟩

/-- Every value occurring in the spec's rule table lies in `[0, 1]`. -/
theorem scoreRules_values_mem (r : (DetectionCounts → Bool) × ℚ)
    (hr : r ∈ scoreRules) : 0 ≤ r.2 ∧ r.2 ≤ 1 := by
  fin_cases hr <;> norm_num

/-- C1: for every `DetectionCounts`, `calculate_package_detection_score`
returns the value of the first matching rule of the fixed 16-rule decision
list in spec order (and `0` when no rule matches); the four spec examples
hold (`{no_objects:1, pakke:5} ↦ 0`, `{pakke:1, postkasse:1, etikett:1,
postkasseskilt:1} ↦ 1`, `{etikett:1, postkasseskilt:1} ↦ 0.8`, `{} ↦ 0`);
and the score always lies in `[0, 1]`. -/
theorem score_is_first_match_of_rule_list :
    (∀ d, calculate_package_detection_score d = evalDecisionList scoreRules d) ∧
    calculate_package_detection_score ⟨1, 5, 0, 0, 0, 0, 0, 0⟩ = 0 ∧
    calculate_package_detection_score ⟨0, 1, 1, 1, 1, 0, 0, 0⟩ = 1 ∧
    calculate_package_detection_score ⟨0, 0, 0, 1, 1, 0, 0, 0⟩ = 8/10 ∧
    calculate_package_detection_score DetectionCounts.empty = 0 ∧
    ∀ d, 0 ≤ calculate_package_detection_score d ∧
      calculate_package_detection_score d ≤ 1 := by
  have key : ∀ d, calculate_package_detection_score d = evalDecisionList scoreRules d := by
    intro d
    unfold calculate_package_detection_score
    exact ite_decide_step (ite_decide_step (ite_decide_step (ite_decide_step
      (ite_decide_step (ite_decide_step (ite_decide_step (ite_decide_step
      (ite_decide_step (ite_decide_step (ite_decide_step (ite_decide_step
      (ite_decide_step (ite_decide_step (ite_decide_step (ite_decide_step
      rfl)))))))))))))))
  refine ⟨key, by norm_num [calculate_package_detection_score],
    by norm_num [calculate_package_detection_score],
    by norm_num [calculate_package_detection_score],
    by norm_num [calculate_package_detection_score, DetectionCounts.empty], ?_⟩
  intro d
  rw [key d]
  rcases evalDecisionList_cases scoreRules d with h0 | ⟨r, hr, hv⟩
  · rw [h0]; norm_num
  · rw [hv]; exact scoreRules_values_mem r hr

/-! ## Label encoder (`create_yolo_label`) -/

/-- `self.target_classes`: the fixed ordered class table; the list position
is the class id. -/
def target_classes : List String :=
  [ "no_objects"
  , "pakke"
  , "postkasse"
  , "etikett"
  , "postkasseskilt"
  , "pakke_i_postkasse"
  , "pakke_ved_inngangsparti"
  , "inngangsparti" ]

/-- One entry of `photo_data['boundingBoxes']`. Coordinates are rationals:
the JSON numbers are handed unchanged to Python float arithmetic, which the
concrete computations below model exactly. -/
structure BoundingBox where
  label : String
  x : ℚ
  y : ℚ
  width : ℚ
  height : ℚ

/-- One entry of `manifest['photos']`. `label` is `none` when the key is
absent (`photo_data.get('label', 'no_objects')` then yields the default);
an absent `boundingBoxes` key reads as the empty list (both are falsy in
the source's truthiness test). -/
structure PhotoRecord where
  id : String
  imagePath : String
  label : Option String
  boundingBoxes : List BoundingBox

/-- Round to the nearest integer, ties to even — the rounding used by both
Python float formatting and the concrete values proved about below. -/
def roundHalfEven (q : ℚ) : ℤ :=
  if q - ⌊q⌋ < 1/2 then ⌊q⌋
  else if 1/2 < q - ⌊q⌋ then ⌊q⌋ + 1
  else if ⌊q⌋ % 2 = 0 then ⌊q⌋ else ⌊q⌋ + 1

/-- Character for a decimal digit. -/
def digitChar (n : ℕ) : Char := Char.ofNat (48 + n % 10)

/-- The six digits after the decimal point of a fraction numerator
`m < 10^6`, most significant first. By construction the string has
length 6. -/
def frac6String (m : ℕ) : String :=
  String.mk [ digitChar (m / 100000), digitChar (m / 10000), digitChar (m / 1000)
            , digitChar (m / 100), digitChar (m / 10), digitChar m ]

/-- Python `f"{v:.6f}"`: fixed-point rendering with exactly six digits after
the decimal point, rounding half to even. -/
def formatFixed6 (q : ℚ) : String :=
  (if q < 0 then "-" else "")
    ++ toString ((roundHalfEven (q * 1000000)).natAbs / 1000000)
    ++ "." ++ frac6String ((roundHalfEven (q * 1000000)).natAbs % 1000000)

/-- One box-mode label line:
`f"{class_id} {x_center:.6f} {y_center:.6f} {width:.6f} {height:.6f}\n"`. -/
def yoloLine (class_id : ℕ) (x_center y_center width height : ℚ) : String :=
  toString class_id ++ " " ++ formatFixed6 x_center ++ " " ++ formatFixed6 y_center
    ++ " " ++ formatFixed6 width ++ " " ++ formatFixed6 height ++ "\n"

/-- The line the source emits for one bounding box: `some` line when the
box label is in the class table, `none` (box silently dropped) otherwise. -/
def boxLine (h w : ℕ) (bbox : BoundingBox) : Option String :=
  if bbox.label ∈ target_classes then
    some (yoloLine (target_classes.indexOf bbox.label)
      ((bbox.x + bbox.width / 2) / w)
      ((bbox.y + bbox.height / 2) / h)
      (bbox.width / w)
      (bbox.height / h))
  else none

/-- `AppDataToYOLO.create_yolo_label`, as the list of lines written to the
label file. `h`/`w` are the first two components of `img_optimized.shape`.
Box mode runs when `boundingBoxes` is truthy (non-empty); otherwise the
whole-image fallback writes exactly one line — note the source writes the
fixed geometry as `0.5 0.5 1.0 1.0`, not through the `:.6f` format. -/
def create_yolo_label (photo : PhotoRecord) (h w : ℕ) : List String :=
  if photo.boundingBoxes.isEmpty then
    let label := photo.label.getD "no_objects"
    if label ∈ target_classes then
      [toString (target_classes.indexOf label) ++ " 0.5 0.5 1.0 1.0\n"]
    else
      ["0 0.5 0.5 1.0 1.0\n"]
  else
    photo.boundingBoxes.filterMap (boxLine h w)

/-- `roundHalfEven` is the identity on integers. -/
theorem roundHalfEven_intCast (k : ℤ) : roundHalfEven (k : ℚ) = k := by
  unfold roundHalfEven
  norm_num [Int.floor_intCast]

/-- Evaluation rule for `formatFixed6` when the value scaled by `10^6` is a
natural number (the case of every value formatted by the claims' concrete
inputs). -/
theorem formatFixed6_eq (q : ℚ) (n : ℕ) (h : q * 1000000 = (n : ℚ)) :
    formatFixed6 q = toString (n / 1000000) ++ "." ++ frac6String (n % 1000000) := by
  have h0 : ¬ q < 0 := by
    intro hq
    have hneg : q * 1000000 < 0 := mul_neg_of_neg_of_pos hq (by norm_num)
    rw [h] at hneg
    exact absurd hneg (not_lt.mpr (Nat.cast_nonneg n))
  unfold formatFixed6
  rw [if_neg h0]
  rw [show ((n : ℚ) = ((n : ℤ) : ℚ)) from by norm_cast] at h
  rw [h, roundHalfEven_intCast]
  simp

/-- A record with empty `boundingBoxes` and `label="pakke"` (spec §8
end-to-end scenario). -/
def pakkePhoto : PhotoRecord := ⟨"p1", "img.jpg", some "pakke", []⟩

/-- A record with one full-frame 640×640 `pakke` box (spec §8 round-trip
scenario). -/
def fullFrameBoxPhoto : PhotoRecord :=
  ⟨"b1", "img.jpg", none, [⟨"pakke", 0, 0, 640, 640⟩]⟩

/-- A record whose only bounding box carries a label outside the class
table. -/
def unknownBoxPhoto : PhotoRecord :=
  ⟨"u1", "img.jpg", none, [⟨"cat", 1, 2, 3, 4⟩]⟩

/-- C2 counterexample: the record with empty `boundingBoxes` and
`label="pakke"` produces the line `"1 0.5 0.5 1.0 1.0\n"`, not the claimed
`"1 0.500000 0.500000 1.000000 1.000000\n"` — the whole-image branch writes
its fixed geometry without the 6-decimal format. -/
theorem whole_image_line_one_decimal_counterexample :
    create_yolo_label pakkePhoto 640 640 = ["1 0.5 0.5 1.0 1.0\n"] ∧
    create_yolo_label pakkePhoto 640 640
      ≠ ["1 0.500000 0.500000 1.000000 1.000000\n"] := by
  constructor
  · decide
  · decide

/-- C2 (amended): box-mode lines have the form `classId cx cy w h` with the
four geometric values formatted with exactly 6 decimal digits and a
trailing newline (`yoloLine`, whose `formatFixed6` components each end in a
`.` followed by exactly six digits); whole-image lines are
`classId 0.5 0.5 1.0 1.0` with a trailing newline; in particular the
empty-boxes `pakke` record yields exactly `"1 0.5 0.5 1.0 1.0\n"`, while a
full-frame 640×640 box yields
`"1 0.500000 0.500000 1.000000 1.000000\n"`. -/
theorem label_line_format_amended :
    (∀ m, (frac6String m).length = 6) ∧
    (∀ q, ∃ intPart m, formatFixed6 q = intPart ++ "." ++ frac6String m) ∧
    (∀ photo hh ww, photo.boundingBoxes.isEmpty = false →
      ∀ line ∈ create_yolo_label photo hh ww,
        ∃ cid x1 x2 x3 x4, cid < target_classes.length ∧
          line = yoloLine cid x1 x2 x3 x4) ∧
    (∀ photo hh ww, photo.boundingBoxes = [] →
      ∃ cid, cid < target_classes.length ∧
        create_yolo_label photo hh ww = [toString cid ++ " 0.5 0.5 1.0 1.0\n"]) ∧
    create_yolo_label pakkePhoto 640 640 = ["1 0.5 0.5 1.0 1.0\n"] ∧
    create_yolo_label fullFrameBoxPhoto 640 640
      = ["1 0.500000 0.500000 1.000000 1.000000\n"] := by
  refine ⟨fun m => rfl, fun q => ⟨_, _, rfl⟩, ?_, ?_, by decide, ?_⟩
  · intro photo hh ww hne line hline
    rw [create_yolo_label, if_neg (by simp [hne])] at hline
    obtain ⟨b, hb, hsome⟩ := List.mem_filterMap.mp hline
    rw [boxLine] at hsome
    by_cases hmem : b.label ∈ target_classes
    · rw [if_pos hmem] at hsome
      exact ⟨target_classes.indexOf b.label, _, _, _, _,
        List.indexOf_lt_length.mpr hmem, (Option.some_inj.mp hsome).symm⟩
    · rw [if_neg hmem] at hsome
      exact absurd hsome (by simp)
  · intro photo hh ww he
    rw [create_yolo_label, if_pos (by simp [he])]
    by_cases hmem : photo.label.getD "no_objects" ∈ target_classes
    · exact ⟨_, List.indexOf_lt_length.mpr hmem, by rw [if_pos hmem]⟩
    · exact ⟨0, by simp [target_classes], by rw [if_neg hmem]; decide⟩
  · have step : create_yolo_label fullFrameBoxPhoto 640 640
        = [yoloLine 1 ((0 + 640/2)/640) ((0 + 640/2)/640) (640/640) (640/640)] := by
      simp [create_yolo_label, fullFrameBoxPhoto, boxLine, List.filterMap, target_classes]
    rw [step, yoloLine,
      formatFixed6_eq _ 500000 (by norm_num),
      formatFixed6_eq _ 1000000 (by norm_num)]
    decide

/-- C2 witness: the amended theorem applied at the concrete full-frame box
record (box mode) and at the concrete whole-image `pakke` record. -/
theorem label_line_format_amended_witness :
    (∃ cid x1 x2 x3 x4, cid < target_classes.length ∧
      "1 0.500000 0.500000 1.000000 1.000000\n" = yoloLine cid x1 x2 x3 x4) ∧
    (∃ cid, cid < target_classes.length ∧
      create_yolo_label pakkePhoto 640 640
        = [toString cid ++ " 0.5 0.5 1.0 1.0\n"]) := by
  constructor
  · exact label_line_format_amended.2.2.1 fullFrameBoxPhoto 640 640 (by decide)
      "1 0.500000 0.500000 1.000000 1.000000\n"
      (by rw [label_line_format_amended.2.2.2.2.2]; exact List.mem_singleton.mpr rfl)
  · exact label_line_format_amended.2.2.2.1 pakkePhoto 640 640 rfl

/-- Counting helper: the number of box-mode lines equals the number of
boxes whose label is in the class table. -/
theorem filterMap_boxLine_length (hh ww : ℕ) (bs : List BoundingBox) :
    (bs.filterMap (boxLine hh ww)).length
      = (bs.filter (fun b => decide (b.label ∈ target_classes))).length := by
  induction bs with
  | nil => rfl
  | cons b rest ih =>
    by_cases hmem : b.label ∈ target_classes
    · simp [List.filterMap_cons, List.filter_cons, boxLine, hmem, ih]
    · simp [List.filterMap_cons, List.filter_cons, boxLine, hmem, ih]

/-- C5: in box mode (non-empty `boundingBoxes`) the output is exactly the
per-box `filterMap` — the whole-image fallback is never consulted; a box
with an unknown label contributes no line and raises no error; the number
of emitted lines equals the number of boxes with a known label; and when
every box label is unknown the label file is empty (accepted, not an
error). -/
theorem box_mode_drops_unknown_labels :
    (∀ photo hh ww, photo.boundingBoxes.isEmpty = false →
      create_yolo_label photo hh ww = photo.boundingBoxes.filterMap (boxLine hh ww)) ∧
    (∀ hh ww b, b.label ∉ target_classes → boxLine hh ww b = none) ∧
    (∀ photo hh ww, photo.boundingBoxes.isEmpty = false →
      (create_yolo_label photo hh ww).length
        = (photo.boundingBoxes.filter (fun b => decide (b.label ∈ target_classes))).length) ∧
    (∀ photo hh ww, photo.boundingBoxes.isEmpty = false →
      (∀ b ∈ photo.boundingBoxes, b.label ∉ target_classes) →
      create_yolo_label photo hh ww = []) := by
  have hmode : ∀ (photo : PhotoRecord) (hh ww : ℕ), photo.boundingBoxes.isEmpty = false →
      create_yolo_label photo hh ww = photo.boundingBoxes.filterMap (boxLine hh ww) := by
    intro photo hh ww hne
    rw [create_yolo_label, if_neg (by simp [hne])]
  have hnone : ∀ (hh ww : ℕ) (b : BoundingBox), b.label ∉ target_classes →
      boxLine hh ww b = none := by
    intro hh ww b hmem
    rw [boxLine, if_neg hmem]
  refine ⟨hmode, hnone, ?_, ?_⟩
  · intro photo hh ww hne
    rw [hmode photo hh ww hne, filterMap_boxLine_length]
  · intro photo hh ww hne hall
    rw [hmode photo hh ww hne, List.filterMap_eq_nil_iff]
    exact fun b hb => hnone hh ww b (hall b hb)

/-- C5 witness: the theorem applied at a record whose single box label
`"cat"` is unknown — box mode runs and yields an empty label file. -/
theorem box_mode_drops_unknown_labels_witness :
    create_yolo_label unknownBoxPhoto 640 640 = [] := by
  exact box_mode_drops_unknown_labels.2.2.2 unknownBoxPhoto 640 640 (by decide)
    (by intro b hb; fin_cases hb; decide)

/-- C6: in whole-image mode (empty `boundingBoxes`), a known `label` yields
exactly one line with that label's class index and the full-frame geometry
`0.5 0.5 1.0 1.0`; an unknown or absent `label` yields exactly one line
with the same geometry under class index 0. -/
theorem whole_image_mode_lines :
    ∀ photo hh ww, photo.boundingBoxes = [] →
      (∀ l, photo.label = some l → l ∈ target_classes →
        create_yolo_label photo hh ww
          = [toString (target_classes.indexOf l) ++ " 0.5 0.5 1.0 1.0\n"]) ∧
      (∀ l, photo.label = some l → l ∉ target_classes →
        create_yolo_label photo hh ww = ["0 0.5 0.5 1.0 1.0\n"]) ∧
      (photo.label = none →
        create_yolo_label photo hh ww = ["0 0.5 0.5 1.0 1.0\n"]) := by
  intro photo hh ww he
  refine ⟨?_, ?_, ?_⟩
  · intro l hl hmem
    rw [create_yolo_label, if_pos (by simp [he]), hl]
    rw [show (some l).getD "no_objects" = l from rfl, if_pos hmem]
  · intro l hl hmem
    rw [create_yolo_label, if_pos (by simp [he]), hl]
    rw [show (some l).getD "no_objects" = l from rfl, if_neg hmem]
  · intro hl
    rw [create_yolo_label, if_pos (by simp [he]), hl]
    rw [show (none : Option String).getD "no_objects" = "no_objects" from rfl,
      if_pos (by decide)]
    decide

/-- C6 witness: the theorem applied at the concrete `pakke` record —
`pakke` has class index 1, and one full-frame line results. -/
theorem whole_image_mode_lines_witness :
    create_yolo_label pakkePhoto 640 640
      = [toString (target_classes.indexOf "pakke") ++ " 0.5 0.5 1.0 1.0\n"] := by
  exact (whole_image_mode_lines pakkePhoto 640 640 rfl).1 "pakke" rfl (by decide)

/-! ## Letterbox image transform (`optimize_image_for_yolo`) -/

/-- A decoded image: `h × w` pixels, `pix y x c` the value of channel `c`
of the pixel at row `y`, column `x` (8-bit values `0..255` in real images,
kept as `ℕ`). -/
structure Image where
  h : ℕ
  w : ℕ
  pix : ℕ → ℕ → ℕ → ℕ

/-- Clamp an integer source index into `[0, n-1]` (the border replication
`cv2.resize` applies at image edges). -/
def clampIdx (n : ℕ) (i : ℤ) : ℕ := min (max i 0).toNat (n - 1)

/-- The source coordinate sampled for destination index `i`:
`(i + 1/2) * src/dst - 1/2`, the geometric mapping of `cv2.resize`. -/
def srcCoord (src dst : ℕ) (i : ℕ) : ℚ := ((i : ℚ) + 1/2) * src / dst - 1/2

/-- Bilinear interpolation of channel `c` at rational source coordinates
`(sy, sx)` with border replication (`cv2.INTER_LINEAR`). -/
def sampleLinear (img : Image) (sy sx : ℚ) (c : ℕ) : ℚ :=
  let y0 : ℤ := ⌊sy⌋
  let x0 : ℤ := ⌊sx⌋
  let fy : ℚ := sy - y0
  let fx : ℚ := sx - x0
  let p00 : ℚ := img.pix (clampIdx img.h y0) (clampIdx img.w x0) c
  let p01 : ℚ := img.pix (clampIdx img.h y0) (clampIdx img.w (x0 + 1)) c
  let p10 : ℚ := img.pix (clampIdx img.h (y0 + 1)) (clampIdx img.w x0) c
  let p11 : ℚ := img.pix (clampIdx img.h (y0 + 1)) (clampIdx img.w (x0 + 1)) c
  (1 - fy) * ((1 - fx) * p00 + fx * p01) + fy * ((1 - fx) * p10 + fx * p11)

/-- `cv2.resize(img, (new_w, new_h), interpolation=cv2.INTER_LINEAR)`,
pixel values rounded to the nearest integer. -/
def resizeLinear (img : Image) (new_w new_h : ℕ) : Image :=
  ⟨new_h, new_w, fun y x c =>
    (roundHalfEven
      (sampleLinear img (srcCoord img.h new_h y) (srcCoord img.w new_w x) c)).toNat⟩

/-- `target_size = 640`. -/
def target_size : ℕ := 640

/-- `scale = min(target_size/w, target_size/h)` over exact rationals. -/
def letterboxScale (img : Image) : ℚ :=
  min ((target_size : ℚ) / img.w) ((target_size : ℚ) / img.h)

/-- `new_w = int(w * scale)`: Python `int()` truncates toward zero, which
is the floor for these non-negative values. -/
def letterboxNewW (img : Image) : ℕ := (⌊(img.w : ℚ) * letterboxScale img⌋).toNat

/-- `new_h = int(h * scale)` (same truncation). -/
def letterboxNewH (img : Image) : ℕ := (⌊(img.h : ℚ) * letterboxScale img⌋).toNat

/-- `pad_w = (target_size - new_w) // 2`. -/
def letterboxPadW (img : Image) : ℕ := (target_size - letterboxNewW img) / 2

/-- `pad_h = (target_size - new_h) // 2`. -/
def letterboxPadH (img : Image) : ℕ := (target_size - letterboxNewH img) / 2

/-- The geometric part of `optimize_image_for_yolo`: resize preserving
aspect ratio, then paste onto a `640×640` canvas `np.full(..., 114)` at
offset `(pad_h, pad_w)`. -/
def letterboxPad (img : Image) : Image :=
  let new_w := letterboxNewW img
  let new_h := letterboxNewH img
  let resized := resizeLinear img new_w new_h
  let pad_w := letterboxPadW img
  let pad_h := letterboxPadH img
  ⟨target_size, target_size, fun y x c =>
    if pad_h ≤ y ∧ y < pad_h + new_h ∧ pad_w ≤ x ∧ x < pad_w + new_w then
      resized.pix (y - pad_h) (x - pad_w) c
    else 114⟩

/-- Per-pixel map of `cv2.convertScaleAbs(img, alpha=0.95, beta=5)`:
`saturate_cast<uint8>(cvRound(0.95·v + 5))` — `0.95·v + 5 = (19v+100)/20`
exactly, rounded half to even and clamped to `[0, 255]` (the absolute
value is a no-op on these non-negative inputs). For 8-bit inputs the exact
rational computation agrees with the double-precision one the source
performs: at the only tie points `v ≡ 10 (mod 20)` both round down to the
even integer. -/
def enhancePixel (v : ℕ) : ℕ :=
  min ((roundHalfEven ((19 * v + 100 : ℚ) / 20)).toNat) 255

/-- `AppDataToYOLO.enhance_for_iphone_photos`: the preceding
`cv2.GaussianBlur(img, (1, 1), 0)` has the 1×1 kernel `[1]` and is the
identity, so the photometric correction is exactly `enhancePixel` applied
to every channel of every pixel. -/
def enhance_for_iphone_photos (img : Image) : Image :=
  ⟨img.h, img.w, fun y x c => enhancePixel (img.pix y x c)⟩

/-- `AppDataToYOLO.optimize_image_for_yolo`: letterbox, then the
unconditional photometric correction. -/
def optimize_image_for_yolo (img : Image) : Image :=
  enhance_for_iphone_photos (letterboxPad img)

/-- `roundHalfEven` is the identity on natural numbers. -/
theorem roundHalfEven_natCast (n : ℕ) : roundHalfEven (n : ℚ) = n := by
  rw [show ((n : ℚ) = ((n : ℤ) : ℚ)) from by norm_cast, roundHalfEven_intCast]

/-- `roundHalfEven` is within `1/2` of its argument. -/
theorem roundHalfEven_sub_abs_le (q : ℚ) : |(roundHalfEven q : ℚ) - q| ≤ 1/2 := by
  unfold roundHalfEven
  have h0 : (⌊q⌋ : ℚ) ≤ q := Int.floor_le q
  have h1 : q < ⌊q⌋ + 1 := Int.lt_floor_add_one q
  split_ifs with ha hb hc <;> rw [abs_le] <;> push_cast <;> constructor <;> linarith

/-- On an already-640×640 image the letterbox geometry is the identity:
scale `1`, no padding, and every in-range pixel is preserved by the
resize-and-paste stage. -/
theorem letterboxPad_square_identity (img : Image) (hW : img.w = 640) (hH : img.h = 640) :
    letterboxScale img = 1 ∧
    letterboxNewW img = 640 ∧ letterboxNewH img = 640 ∧
    letterboxPadW img = 0 ∧ letterboxPadH img = 0 ∧
    ∀ y x c, y < 640 → x < 640 → (letterboxPad img).pix y x c = img.pix y x c := by
  have hsc : letterboxScale img = 1 := by
    unfold letterboxScale target_size
    rw [hW, hH]
    norm_num
  have hnw : letterboxNewW img = 640 := by
    unfold letterboxNewW
    rw [hsc, hW]
    norm_num
    decide
  have hnh : letterboxNewH img = 640 := by
    unfold letterboxNewH
    rw [hsc, hH]
    norm_num
    decide
  have hpw : letterboxPadW img = 0 := by
    unfold letterboxPadW target_size
    rw [hnw]
  have hph : letterboxPadH img = 0 := by
    unfold letterboxPadH target_size
    rw [hnh]
  refine ⟨hsc, hnw, hnh, hpw, hph, ?_⟩
  intro y x c hy hx
  show (if letterboxPadH img ≤ y ∧ y < letterboxPadH img + letterboxNewH img ∧
      letterboxPadW img ≤ x ∧ x < letterboxPadW img + letterboxNewW img then
        (resizeLinear img (letterboxNewW img) (letterboxNewH img)).pix
          (y - letterboxPadH img) (x - letterboxPadW img) c
      else 114) = img.pix y x c
  rw [if_pos (by rw [hnw, hnh, hpw, hph]; omega), hpw, hph, hnw, hnh]
  show (roundHalfEven
    (sampleLinear img (srcCoord img.h 640 (y - 0)) (srcCoord img.w 640 (x - 0)) c)).toNat
      = img.pix y x c
  have hsy : srcCoord img.h 640 (y - 0) = (y : ℚ) := by
    unfold srcCoord
    rw [hH, Nat.sub_zero]
    push_cast
    ring
  have hsx : srcCoord img.w 640 (x - 0) = (x : ℚ) := by
    unfold srcCoord
    rw [hW, Nat.sub_zero]
    push_cast
    ring
  rw [hsy, hsx]
  have hcy : clampIdx img.h (y : ℤ) = y := by
    unfold clampIdx
    rw [hH]
    omega
  have hcx : clampIdx img.w (x : ℤ) = x := by
    unfold clampIdx
    rw [hW]
    omega
  have hsample : sampleLinear img (y : ℚ) (x : ℚ) c = img.pix y x c := by
    simp only [sampleLinear, Int.floor_natCast]
    rw [hcy, hcx]
    push_cast
    ring
  rw [hsample, roundHalfEven_natCast]
  exact Int.toNat_natCast _

/-- A 640×640 image with no content (every channel 0 everywhere). -/
def blank640 : Image := ⟨640, 640, fun _ _ _ => 0⟩

/-- The photometric correction maps pixel value 0 to 5. -/
theorem enhancePixel_zero : enhancePixel 0 = 5 := by
  unfold enhancePixel
  rw [show ((19 * ((0:ℕ):ℚ) + 100) / 20 : ℚ) = ((5:ℤ):ℚ) from by norm_num,
    roundHalfEven_intCast]
  decide

/-- The photometric correction maps pixel value 5 to 10 (`9.75` rounds
up), so it is not idempotent. -/
theorem enhancePixel_five : enhancePixel 5 = 10 := by
  unfold enhancePixel
  have hfl : ⌊((19 * ((5:ℕ):ℚ) + 100) / 20 : ℚ)⌋ = 9 := by
    norm_num [Int.floor_eq_iff]
  unfold roundHalfEven
  rw [hfl]
  rw [if_neg (by push_cast; norm_num), if_pos (by push_cast; norm_num)]
  decide

/-- One pass over the blank image leaves pixel `(0,0,0)` at value 5. -/
theorem optimize_blank_pixel :
    (optimize_image_for_yolo blank640).pix 0 0 0 = 5 := by
  show enhancePixel ((letterboxPad blank640).pix 0 0 0) = 5
  rw [(letterboxPad_square_identity blank640 rfl rfl).2.2.2.2.2 0 0 0
    (by norm_num) (by norm_num)]
  exact enhancePixel_zero

/-- A second pass moves the same pixel from 5 to 10. -/
theorem optimize_optimize_blank_pixel :
    (optimize_image_for_yolo (optimize_image_for_yolo blank640)).pix 0 0 0 = 10 := by
  show enhancePixel ((letterboxPad (optimize_image_for_yolo blank640)).pix 0 0 0) = 10
  rw [(letterboxPad_square_identity (optimize_image_for_yolo blank640) rfl rfl).2.2.2.2.2
    0 0 0 (by norm_num) (by norm_num)]
  rw [optimize_blank_pixel]
  exact enhancePixel_five

/-- A 3-wide, 2-high image, all channels 0. -/
def img3x2 : Image := ⟨2, 3, fun _ _ _ => 0⟩

/-- C3 counterexample: on a 3×2 image, `scale = 640/3` and
`H·scale = 1280/3 ≈ 426.67`; the source's `int()` truncation gives
`new_h = 426`, whereas rounding as the claim states would give 427. -/
theorem letterbox_rounding_counterexample :
    letterboxNewH img3x2 = 426 ∧
    roundHalfEven ((img3x2.h : ℚ) * letterboxScale img3x2) = 427 ∧
    (letterboxNewH img3x2 : ℤ) ≠ roundHalfEven ((img3x2.h : ℚ) * letterboxScale img3x2) := by
  have hW : img3x2.w = 3 := rfl
  have hH : img3x2.h = 2 := rfl
  have hsc : letterboxScale img3x2 = 640/3 := by
    unfold letterboxScale target_size
    rw [hW, hH]
    push_cast
    rw [min_eq_left (by norm_num)]
  have hq : (img3x2.h : ℚ) * letterboxScale img3x2 = 1280/3 := by
    rw [hsc, hH]
    push_cast
    norm_num
  have hfl : ⌊(1280/3 : ℚ)⌋ = 426 := by norm_num [Int.floor_eq_iff]
  have h1 : letterboxNewH img3x2 = 426 := by
    unfold letterboxNewH
    rw [hq, hfl]
    rfl
  have h2 : roundHalfEven ((img3x2.h : ℚ) * letterboxScale img3x2) = 427 := by
    unfold roundHalfEven
    rw [hq, hfl]
    rw [if_neg (by push_cast; norm_num), if_pos (by push_cast; norm_num)]
    decide
  exact ⟨h1, h2, by rw [h1, h2]; decide⟩

/-- C3 (amended): for every image with `W ≥ 1`, `H ≥ 1`,
`scale = min(640/W, 640/H)`; the resize targets are
`newW = int(W·scale)`, `newH = int(H·scale)` — truncation (floor), not
`round` as claimed; both fit in the canvas; the canvas pixels outside the
pasted region are 114 in every channel; the paste offset is
`((640−newW)/2, (640−newH)/2)` with floor division; and the output is
640×640. -/
theorem letterbox_geometry_amended (img : Image) (hw : 1 ≤ img.w) (hh : 1 ≤ img.h) :
    (optimize_image_for_yolo img).h = 640 ∧
    (optimize_image_for_yolo img).w = 640 ∧
    letterboxScale img = min ((640 : ℚ) / img.w) ((640 : ℚ) / img.h) ∧
    (img.w : ℚ) * letterboxScale img ≤ 640 ∧
    (img.h : ℚ) * letterboxScale img ≤ 640 ∧
    letterboxNewW img ≤ 640 ∧
    letterboxNewH img ≤ 640 ∧
    (resizeLinear img (letterboxNewW img) (letterboxNewH img)).h = letterboxNewH img ∧
    (resizeLinear img (letterboxNewW img) (letterboxNewH img)).w = letterboxNewW img ∧
    letterboxPadW img + letterboxNewW img ≤ 640 ∧
    letterboxPadH img + letterboxNewH img ≤ 640 ∧
    (∀ y x c,
      (letterboxPadH img ≤ y ∧ y < letterboxPadH img + letterboxNewH img ∧
       letterboxPadW img ≤ x ∧ x < letterboxPadW img + letterboxNewW img) →
      (letterboxPad img).pix y x c
        = (resizeLinear img (letterboxNewW img) (letterboxNewH img)).pix
            (y - letterboxPadH img) (x - letterboxPadW img) c) ∧
    (∀ y x c,
      ¬(letterboxPadH img ≤ y ∧ y < letterboxPadH img + letterboxNewH img ∧
        letterboxPadW img ≤ x ∧ x < letterboxPadW img + letterboxNewW img) →
      (letterboxPad img).pix y x c = 114) := by
  have hw0 : (0:ℚ) < img.w := by exact_mod_cast hw
  have hh0 : (0:ℚ) < img.h := by exact_mod_cast hh
  have hscw : letterboxScale img ≤ (640:ℚ)/img.w := by
    have h := min_le_left ((target_size : ℚ) / img.w) ((target_size : ℚ) / img.h)
    simpa [letterboxScale, target_size] using h
  have hsch : letterboxScale img ≤ (640:ℚ)/img.h := by
    have h := min_le_right ((target_size : ℚ) / img.w) ((target_size : ℚ) / img.h)
    simpa [letterboxScale, target_size] using h
  have hmw : (img.w : ℚ) * letterboxScale img ≤ 640 := by
    calc (img.w : ℚ) * letterboxScale img
        ≤ (img.w : ℚ) * ((640:ℚ)/img.w) := mul_le_mul_of_nonneg_left hscw (le_of_lt hw0)
      _ = 640 := by field_simp
  have hmh : (img.h : ℚ) * letterboxScale img ≤ 640 := by
    calc (img.h : ℚ) * letterboxScale img
        ≤ (img.h : ℚ) * ((640:ℚ)/img.h) := mul_le_mul_of_nonneg_left hsch (le_of_lt hh0)
      _ = 640 := by field_simp
  have hnwle : letterboxNewW img ≤ 640 := by
    have h1 : ⌊(img.w : ℚ) * letterboxScale img⌋ ≤ 640 := by
      have h2 := Int.floor_le_floor hmw
      simpa using h2
    unfold letterboxNewW
    omega
  have hnhle : letterboxNewH img ≤ 640 := by
    have h1 : ⌊(img.h : ℚ) * letterboxScale img⌋ ≤ 640 := by
      have h2 := Int.floor_le_floor hmh
      simpa using h2
    unfold letterboxNewH
    omega
  refine ⟨rfl, rfl, ?_, hmw, hmh, hnwle, hnhle, rfl, rfl, ?_, ?_, ?_, ?_⟩
  · unfold letterboxScale target_size
    push_cast
    rfl
  · unfold letterboxPadW target_size
    omega
  · unfold letterboxPadH target_size
    omega
  · intro y x c hreg
    show (if letterboxPadH img ≤ y ∧ y < letterboxPadH img + letterboxNewH img ∧
        letterboxPadW img ≤ x ∧ x < letterboxPadW img + letterboxNewW img then
          (resizeLinear img (letterboxNewW img) (letterboxNewH img)).pix
            (y - letterboxPadH img) (x - letterboxPadW img) c
        else 114) = _
    rw [if_pos hreg]
  · intro y x c hreg
    show (if letterboxPadH img ≤ y ∧ y < letterboxPadH img + letterboxNewH img ∧
        letterboxPadW img ≤ x ∧ x < letterboxPadW img + letterboxNewW img then
          (resizeLinear img (letterboxNewW img) (letterboxNewH img)).pix
            (y - letterboxPadH img) (x - letterboxPadW img) c
        else 114) = 114
    rw [if_neg hreg]

/-- C3 witness: the amended theorem applied at the concrete 3×2 image. -/
theorem letterbox_geometry_amended_witness :
    (optimize_image_for_yolo img3x2).h = 640 ∧ letterboxNewH img3x2 ≤ 640 := by
  obtain ⟨h1, _, _, _, _, _, h7, _⟩ :=
    letterbox_geometry_amended img3x2 (by decide) (by decide)
  exact ⟨h1, h7⟩

/-- C7: the photometric correction is applied unconditionally after
padding (`optimize_image_for_yolo` is exactly the correction composed on
the padded image), per channel of every pixel; and for every 8-bit input
`v ≤ 255` the corrected value is the clamped linear form
`0.95·v + 5 = (19v+100)/20` up to the half-unit quantization of the
8-bit result, staying within `[0, 255]`. -/
theorem photometric_correction_formula :
    (∀ img, optimize_image_for_yolo img = enhance_for_iphone_photos (letterboxPad img)) ∧
    (∀ img y x c, (enhance_for_iphone_photos img).pix y x c
        = enhancePixel (img.pix y x c)) ∧
    (∀ v, v ≤ 255 → enhancePixel v ≤ 255 ∧
      |(enhancePixel v : ℚ) - ((19/20) * v + 5)| ≤ 1/2) := by
  refine ⟨fun img => rfl, fun img y x c => rfl, ?_⟩
  intro v hv
  have hvq : (v:ℚ) ≤ 255 := by exact_mod_cast hv
  have hv0 : (0:ℚ) ≤ (v:ℚ) := Nat.cast_nonneg v
  have habs := roundHalfEven_sub_abs_le ((19 * v + 100 : ℚ) / 20)
  have hab := abs_le.mp habs
  have hlb : (5:ℚ) ≤ (19 * v + 100 : ℚ) / 20 := by
    rw [le_div_iff₀ (by norm_num)]
    linarith
  have hub : ((19 * v + 100 : ℚ) / 20) ≤ 4945/20 := by
    apply (div_le_div_iff_of_pos_right (by norm_num : (0:ℚ) < 20)).mpr
    linarith
  have hr255 : roundHalfEven ((19 * v + 100 : ℚ) / 20) ≤ 255 := by
    have h1 : ((roundHalfEven ((19 * v + 100 : ℚ) / 20) : ℤ) : ℚ) < 256 := by linarith
    have h2 : (roundHalfEven ((19 * v + 100 : ℚ) / 20) : ℤ) < 256 := by exact_mod_cast h1
    omega
  have hr0 : 0 ≤ roundHalfEven ((19 * v + 100 : ℚ) / 20) := by
    have h1 : (4:ℚ) < ((roundHalfEven ((19 * v + 100 : ℚ) / 20) : ℤ) : ℚ) := by linarith
    have h2 : (4:ℤ) < roundHalfEven ((19 * v + 100 : ℚ) / 20) := by exact_mod_cast h1
    omega
  have hmin : enhancePixel v = (roundHalfEven ((19 * v + 100 : ℚ) / 20)).toNat := by
    unfold enhancePixel
    exact min_eq_left (by omega)
  refine ⟨by rw [hmin]; omega, ?_⟩
  rw [hmin]
  have hcast : (((roundHalfEven ((19 * v + 100 : ℚ) / 20)).toNat : ℕ) : ℚ)
      = ((roundHalfEven ((19 * v + 100 : ℚ) / 20) : ℤ) : ℚ) := by
    exact_mod_cast congrArg Int.cast (Int.toNat_of_nonneg hr0)
  rw [hcast]
  have hform : (19/20) * (v:ℚ) + 5 = (19 * v + 100 : ℚ) / 20 := by ring
  rw [hform]
  exact habs

/-- C7 witness: the formula instantiated at pixel value 0. -/
theorem photometric_correction_formula_witness :
    enhancePixel 0 ≤ 255 ∧
    |(enhancePixel 0 : ℚ) - ((19/20) * ((0:ℕ):ℚ) + 5)| ≤ 1/2 :=
  photometric_correction_formula.2.2 0 (by norm_num)

/-- C9 counterexample: on the blank 640×640 image the full transform
(letterbox plus unconditional photometric correction) is not idempotent —
the first pass takes pixel `(0,0,0)` from 0 to 5 and the second pass takes
it on to 10, so applying the transform to its own output changes the
image. -/
theorem letterbox_not_idempotent_counterexample :
    (optimize_image_for_yolo blank640).pix 0 0 0 = 5 ∧
    (optimize_image_for_yolo (optimize_image_for_yolo blank640)).pix 0 0 0 = 10 ∧
    optimize_image_for_yolo (optimize_image_for_yolo blank640)
      ≠ optimize_image_for_yolo blank640 := by
  refine ⟨optimize_blank_pixel, optimize_optimize_blank_pixel, ?_⟩
  intro hEq
  have h := congrArg (fun im => im.pix 0 0 0) hEq
  simp only at h
  rw [optimize_optimize_blank_pixel, optimize_blank_pixel] at h
  exact absurd h (by decide)

/-- C9 (amended): on an already-640×640 image the geometric letterbox
stage is the identity (scale 1, no padding), so a second application of
the full transform re-applies exactly the photometric correction — which
is not idempotent — rather than yielding the same image. -/
theorem letterbox_640_reapplies_correction (img : Image)
    (hW : img.w = 640) (hH : img.h = 640) :
    letterboxScale img = 1 ∧
    letterboxPadW img = 0 ∧ letterboxPadH img = 0 ∧
    (∀ y x c, y < 640 → x < 640 → (letterboxPad img).pix y x c = img.pix y x c) ∧
    (∀ y x c, y < 640 → x < 640 →
      (optimize_image_for_yolo img).pix y x c = enhancePixel (img.pix y x c)) := by
  obtain ⟨hsc, hnw, hnh, hpw, hph, hpix⟩ := letterboxPad_square_identity img hW hH
  refine ⟨hsc, hpw, hph, hpix, ?_⟩
  intro y x c hy hx
  show enhancePixel ((letterboxPad img).pix y x c) = _
  rw [hpix y x c hy hx]

/-- C9 witness: the amended theorem applied at the blank 640×640 image. -/
theorem letterbox_640_reapplies_correction_witness :
    letterboxScale blank640 = 1 ∧
    (letterboxPad blank640).pix 0 0 0 = blank640.pix 0 0 0 :=
  ⟨(letterbox_640_reapplies_correction blank640 rfl rfl).1,
    (letterbox_640_reapplies_correction blank640 rfl rfl).2.2.2.1 0 0 0
      (by norm_num) (by norm_num)⟩

/-! ## Conversion loop (`convert_app_data`) -/

/-- The train/validation split. -/
inductive Split
  | train
  | val
deriving DecidableEq, Repr

/-- `is_val = i % 5 == 0; split = "val" if is_val else "train"` for the
zero-based manifest index `i`. -/
def splitFor (i : ℕ) : Split := if i % 5 = 0 then Split.val else Split.train

/-- What the filesystem yields for a record's `imagePath`: the file is
missing, the file exists but `cv2.imread` returns `None`, or the image
decodes. The source's per-record `try`/`except` turns every failure
outcome into the same skip. -/
inductive ImageLoad
  | missing
  | undecodable
  | decoded (img : Image)

/-- The environment `convert_app_data` runs against: the parsed manifest
(`none` when `manifest.json` does not exist) and the load outcome of each
image path. -/
structure ConvertEnv where
  manifest : Option (List PhotoRecord)
  load : String → ImageLoad

/-- `AppDataToYOLO.process_photo`: `false` (skip) when the image is
missing or undecodable — the two explicit failure paths, which together
with the surrounding `except` are the record-level failure modes — and
`true` with the written image/label pair (keyed by split and id stem)
when the record processes. -/
def process_photo (env : ConvertEnv) (photo : PhotoRecord) (split : Split) :
    Bool × List (Split × String) :=
  match env.load photo.imagePath with
  | ImageLoad.missing => (false, [])
  | ImageLoad.undecodable => (false, [])
  | ImageLoad.decoded _ => (true, [(split, photo.id)])

/-- `true` exactly when the record's image decodes. -/
def loadOk (env : ConvertEnv) (photo : PhotoRecord) : Bool :=
  match env.load photo.imagePath with
  | ImageLoad.decoded _ => true
  | _ => false

/-- The observable outcome of a conversion run: the returned flag, the
three counters, the written image/label stems, and (ghost instrumentation
of the loop) the records attempted and the split each index was assigned. -/
structure ConvertResult where
  ok : Bool
  train_count : ℕ
  val_count : ℕ
  skipped_count : ℕ
  written : List (Split × String)
  attempted : List String
  assigned : List Split
deriving DecidableEq, Repr

/-- The `for i, photo_data in enumerate(...)` loop body of
`convert_app_data`, from index `i` on. -/
def convertLoop (env : ConvertEnv) : List PhotoRecord → ℕ → ConvertResult
  | [], _ => ⟨true, 0, 0, 0, [], [], []⟩
  | photo :: rest, i =>
    let split := splitFor i
    let res := process_photo env photo split
    let r := convertLoop env rest (i + 1)
    { ok := r.ok
      train_count := (if res.1 = true ∧ split = Split.train then 1 else 0) + r.train_count
      val_count := (if res.1 = true ∧ split = Split.val then 1 else 0) + r.val_count
      skipped_count := (if res.1 = true then 0 else 1) + r.skipped_count
      written := res.2 ++ r.written
      attempted := photo.id :: r.attempted
      assigned := split :: r.assigned }

/-- `AppDataToYOLO.convert_app_data`: abort with `False` (and no writes)
when the manifest is absent, otherwise run the loop over all photos and
return `True`. -/
def convert_app_data (env : ConvertEnv) : ConvertResult :=
  match env.manifest with
  | none => ⟨false, 0, 0, 0, [], [], []⟩
  | some photos => convertLoop env photos 0

theorem process_photo_fst (env : ConvertEnv) (photo : PhotoRecord) (split : Split) :
    (process_photo env photo split).1 = loadOk env photo := by
  unfold process_photo loadOk
  cases env.load photo.imagePath <;> rfl

theorem convertLoop_ok (env : ConvertEnv) (photos : List PhotoRecord) (i : ℕ) :
    (convertLoop env photos i).ok = true := by
  induction photos generalizing i with
  | nil => rfl
  | cons p rest ih => simp [convertLoop, ih]

theorem convertLoop_attempted (env : ConvertEnv) (photos : List PhotoRecord) (i : ℕ) :
    (convertLoop env photos i).attempted = photos.map (fun p => p.id) := by
  induction photos generalizing i with
  | nil => rfl
  | cons p rest ih => simp [convertLoop, ih]

theorem convertLoop_assigned (env : ConvertEnv) (photos : List PhotoRecord) (i : ℕ) :
    (convertLoop env photos i).assigned = (List.range' i photos.length).map splitFor := by
  induction photos generalizing i with
  | nil => rfl
  | cons p rest ih => simp [convertLoop, ih, List.range']

theorem convertLoop_skipped (env : ConvertEnv) (photos : List PhotoRecord) (i : ℕ) :
    (convertLoop env photos i).skipped_count
      = (photos.filter (fun p => ! loadOk env p)).length := by
  induction photos generalizing i with
  | nil => rfl
  | cons p rest ih =>
    show (if (process_photo env p (splitFor i)).1 = true then 0 else 1)
        + (convertLoop env rest (i + 1)).skipped_count = _
    rw [process_photo_fst, ih, List.filter_cons]
    cases h : loadOk env p <;> simp [h] <;> omega

theorem convertLoop_val (env : ConvertEnv) (photos : List PhotoRecord) (i : ℕ) :
    (convertLoop env photos i).val_count
      = ((List.enumFrom i photos).filter
          (fun pr => decide (pr.1 % 5 = 0) && loadOk env pr.2)).length := by
  induction photos generalizing i with
  | nil => rfl
  | cons p rest ih =>
    show (if (process_photo env p (splitFor i)).1 = true ∧ splitFor i = Split.val
          then 1 else 0)
        + (convertLoop env rest (i + 1)).val_count = _
    rw [process_photo_fst, ih]
    show _ = ((((i, p) :: List.enumFrom (i+1) rest).filter
      (fun pr => decide (pr.1 % 5 = 0) && loadOk env pr.2)).length)
    rw [List.filter_cons]
    by_cases hm : i % 5 = 0 <;> cases h : loadOk env p <;>
      simp [splitFor, hm, h] <;> omega

theorem convertLoop_train (env : ConvertEnv) (photos : List PhotoRecord) (i : ℕ) :
    (convertLoop env photos i).train_count
      = ((List.enumFrom i photos).filter
          (fun pr => !decide (pr.1 % 5 = 0) && loadOk env pr.2)).length := by
  induction photos generalizing i with
  | nil => rfl
  | cons p rest ih =>
    show (if (process_photo env p (splitFor i)).1 = true ∧ splitFor i = Split.train
          then 1 else 0)
        + (convertLoop env rest (i + 1)).train_count = _
    rw [process_photo_fst, ih]
    show _ = ((((i, p) :: List.enumFrom (i+1) rest).filter
      (fun pr => !decide (pr.1 % 5 = 0) && loadOk env pr.2)).length)
    rw [List.filter_cons]
    by_cases hm : i % 5 = 0 <;> cases h : loadOk env p <;>
      simp [splitFor, hm, h] <;> omega

theorem convertLoop_sum (env : ConvertEnv) (photos : List PhotoRecord) (i : ℕ) :
    (convertLoop env photos i).train_count + (convertLoop env photos i).val_count
      + (convertLoop env photos i).skipped_count = photos.length := by
  induction photos generalizing i with
  | nil => rfl
  | cons p rest ih =>
    show ((if (process_photo env p (splitFor i)).1 = true ∧ splitFor i = Split.train
          then 1 else 0) + (convertLoop env rest (i+1)).train_count)
        + ((if (process_photo env p (splitFor i)).1 = true ∧ splitFor i = Split.val
          then 1 else 0) + (convertLoop env rest (i+1)).val_count)
        + ((if (process_photo env p (splitFor i)).1 = true then 0 else 1)
          + (convertLoop env rest (i+1)).skipped_count) = rest.length + 1
    have hsum := ih (i + 1)
    cases hs : (process_photo env p (splitFor i)).1 <;>
      rcases hsp : splitFor i with _ | _ <;>
      simp [hs, hsp] <;> omega

theorem convertLoop_written (env : ConvertEnv) (photos : List PhotoRecord) (i : ℕ) :
    (convertLoop env photos i).written
      = (List.enumFrom i photos).filterMap
          (fun pr => if loadOk env pr.2 then some (splitFor pr.1, pr.2.id) else none) := by
  induction photos generalizing i with
  | nil => rfl
  | cons p rest ih =>
    show (process_photo env p (splitFor i)).2
        ++ (convertLoop env rest (i + 1)).written = _
    rw [ih]
    show _ = (((i, p) :: List.enumFrom (i+1) rest).filterMap
      (fun pr => if loadOk env pr.2 then some (splitFor pr.1, pr.2.id) else none))
    rw [List.filterMap_cons]
    unfold process_photo loadOk
    cases env.load p.imagePath <;> simp

theorem filter_range_mod5_length (n : ℕ) :
    ((List.range n).filter (fun i => decide (i % 5 = 0))).length = (n + 4) / 5 := by
  induction n with
  | zero => rfl
  | succ n ih =>
    rw [List.range_succ, List.filter_append, List.length_append, ih]
    by_cases h : n % 5 = 0 <;> simp [h] <;> omega

theorem filter_range_not_mod5_length (n : ℕ) :
    ((List.range n).filter (fun i => !decide (i % 5 = 0))).length = n - (n + 4) / 5 := by
  induction n with
  | zero => rfl
  | succ n ih =>
    rw [List.range_succ, List.filter_append, List.length_append, ih]
    by_cases h : n % 5 = 0 <;> simp [h] <;> omega

theorem ceil_div5 (n : ℕ) : (((n + 4) / 5 : ℕ) : ℤ) = ⌈(n : ℚ) / 5⌉ := by
  set k : ℕ := (n + 4) / 5 with hk
  have h1 : n ≤ 5 * k := by omega
  have h2 : 5 * k ≤ n + 4 := by omega
  rw [eq_comm, Int.ceil_eq_iff]
  constructor
  · rw [lt_div_iff₀ (by norm_num : (0:ℚ) < 5)]
    have hq2 : (5:ℚ) * k ≤ (n:ℚ) + 4 := by exact_mod_cast h2
    push_cast
    linarith
  · rw [div_le_iff₀ (by norm_num : (0:ℚ) < 5)]
    have hq1 : (n:ℚ) ≤ 5 * k := by exact_mod_cast h1
    push_cast
    linarith

/-- An environment with no `manifest.json`. -/
def noManifestEnv : ConvertEnv := ⟨none, fun _ => ImageLoad.missing⟩

/-- A one-record manifest whose image file is missing. -/
def demoEnv : ConvertEnv := ⟨some [pakkePhoto], fun _ => ImageLoad.missing⟩

/-- C4: the photo at zero-based manifest index `i` is assigned to `val`
iff `i mod 5 = 0` and to `train` otherwise; over any manifest of length
`n` exactly `(n+4)/5 = ⌈n/5⌉` indices are assigned `val` and the rest
`train`; and the assignment recorded by `convert_app_data` is a pure
function of the index (identical across runs and environments of equal
manifest length). -/
theorem split_assignment_deterministic :
    (∀ env photos, env.manifest = some photos →
      (convert_app_data env).assigned = (List.range photos.length).map splitFor) ∧
    (∀ env env2 photos photos2, env.manifest = some photos →
      env2.manifest = some photos2 → photos.length = photos2.length →
      (convert_app_data env).assigned = (convert_app_data env2).assigned) ∧
    (∀ i, splitFor i = Split.val ↔ i % 5 = 0) ∧
    (∀ n, (((List.range n).map splitFor).filter (fun s => s == Split.val)).length
        = (n + 4) / 5) ∧
    (∀ n, (((List.range n).map splitFor).filter (fun s => s == Split.train)).length
        = n - (n + 4) / 5) ∧
    (∀ n, (((n + 4) / 5 : ℕ) : ℤ) = ⌈(n : ℚ) / 5⌉) := by
  have hassigned : ∀ env photos, env.manifest = some photos →
      (convert_app_data env).assigned = (List.range photos.length).map splitFor := by
    intro env photos h
    show (match env.manifest with
      | none => (⟨false, 0, 0, 0, [], [], []⟩ : ConvertResult)
      | some photos => convertLoop env photos 0).assigned = _
    rw [h]
    rw [convertLoop_assigned, List.range_eq_range']
  have hval : ((fun s => s == Split.val) ∘ splitFor) = (fun i => decide (i % 5 = 0)) := by
    funext i
    show (splitFor i == Split.val) = _
    unfold splitFor
    by_cases h : i % 5 = 0 <;> simp [h]
  have htrain : ((fun s => s == Split.train) ∘ splitFor)
      = (fun i => !decide (i % 5 = 0)) := by
    funext i
    show (splitFor i == Split.train) = _
    unfold splitFor
    by_cases h : i % 5 = 0 <;> simp [h]
  refine ⟨hassigned, ?_, ?_, ?_, ?_, ceil_div5⟩
  · intro env env2 photos photos2 h h2 hlen
    rw [hassigned env photos h, hassigned env2 photos2 h2, hlen]
  · intro i
    unfold splitFor
    by_cases h : i % 5 = 0 <;> simp [h]
  · intro n
    rw [List.filter_map, List.length_map, hval, filter_range_mod5_length]
  · intro n
    rw [List.filter_map, List.length_map, htrain, filter_range_not_mod5_length]

/-- C4 witness: the theorem applied at the one-record environment. -/
theorem split_assignment_deterministic_witness :
    (convert_app_data demoEnv).assigned = (List.range 1).map splitFor :=
  split_assignment_deterministic.1 demoEnv [pakkePhoto] rfl

/-- C8: an absent manifest aborts at top level — result flag `false`,
all counters zero, nothing written, zero records attempted; with a
manifest, every record is attempted exactly once in order regardless of
failures, a record whose image is missing or undecodable is skipped and
counted while processing continues, and exactly the successfully loaded
records are written. -/
theorem manifest_abort_and_record_skip :
    (∀ env, env.manifest = none →
      convert_app_data env = ⟨false, 0, 0, 0, [], [], []⟩) ∧
    (∀ env photos, env.manifest = some photos →
      (convert_app_data env).ok = true ∧
      (convert_app_data env).attempted = photos.map (fun p => p.id) ∧
      (convert_app_data env).skipped_count
        = (photos.filter (fun p => ! loadOk env p)).length ∧
      (convert_app_data env).written
        = (List.enumFrom 0 photos).filterMap
            (fun pr => if loadOk env pr.2 then some (splitFor pr.1, pr.2.id) else none)) := by
  constructor
  · intro env h
    show (match env.manifest with
      | none => (⟨false, 0, 0, 0, [], [], []⟩ : ConvertResult)
      | some photos => convertLoop env photos 0) = _
    rw [h]
  · intro env photos h
    have hconv : convert_app_data env = convertLoop env photos 0 := by
      show (match env.manifest with
        | none => (⟨false, 0, 0, 0, [], [], []⟩ : ConvertResult)
        | some photos => convertLoop env photos 0) = _
      rw [h]
    rw [hconv]
    exact ⟨convertLoop_ok env photos 0, convertLoop_attempted env photos 0,
      convertLoop_skipped env photos 0, convertLoop_written env photos 0⟩

/-- C8 witness: the theorem applied at the no-manifest environment and at
the one-record environment with a missing image. -/
theorem manifest_abort_and_record_skip_witness :
    convert_app_data noManifestEnv = ⟨false, 0, 0, 0, [], [], []⟩ ∧
    (convert_app_data demoEnv).attempted = ["p1"] ∧
    (convert_app_data demoEnv).skipped_count = 1 := by
  refine ⟨manifest_abort_and_record_skip.1 noManifestEnv rfl, ?_, ?_⟩
  · rw [(manifest_abort_and_record_skip.2 demoEnv [pakkePhoto] rfl).2.1]
    rfl
  · rw [(manifest_abort_and_record_skip.2 demoEnv [pakkePhoto] rfl).2.2.1]
    rfl

/-- C10: for every manifest that loads, the three counters partition the
photo list exactly — `train + val + skipped` equals the number of photos,
and each counter counts a distinct subset of records (successful
non-`val`-index records, successful `val`-index records, and failed
records respectively), so each record increments exactly one counter. -/
theorem counters_partition (env : ConvertEnv) (photos : List PhotoRecord)
    (h : env.manifest = some photos) :
    (convert_app_data env).train_count + (convert_app_data env).val_count
      + (convert_app_data env).skipped_count = photos.length ∧
    (convert_app_data env).val_count
      = ((List.enumFrom 0 photos).filter
          (fun pr => decide (pr.1 % 5 = 0) && loadOk env pr.2)).length ∧
    (convert_app_data env).train_count
      = ((List.enumFrom 0 photos).filter
          (fun pr => !decide (pr.1 % 5 = 0) && loadOk env pr.2)).length ∧
    (convert_app_data env).skipped_count
      = (photos.filter (fun p => ! loadOk env p)).length := by
  have hconv : convert_app_data env = convertLoop env photos 0 := by
    show (match env.manifest with
      | none => (⟨false, 0, 0, 0, [], [], []⟩ : ConvertResult)
      | some photos => convertLoop env photos 0) = _
    rw [h]
  rw [hconv]
  exact ⟨convertLoop_sum env photos 0, convertLoop_val env photos 0,
    convertLoop_train env photos 0, convertLoop_skipped env photos 0⟩

/-- C10 witness: the theorem applied at the one-record environment. -/
theorem counters_partition_witness :
    (convert_app_data demoEnv).train_count + (convert_app_data demoEnv).val_count
      + (convert_app_data demoEnv).skipped_count = 1 :=
  (counters_partition demoEnv [pakkePhoto] rfl).1

end PhotoAnalyzer
